import Mathlib

/-!
Verification of the repo-master repository search core.

This file gives a shallow embedding, in Lean 4, of the repository's search
core (query tokenizer, scanner cache, scorer/excerpt engine, single-repo
search, multi-repo aggregator, worker pool, research controller and
follow-up planner parsing), and proves properties of that embedding.

Modeling conventions:
- JavaScript strings are modeled as lists of characters (`Str`).
- File-system, process, network and LLM interactions are abstracted as
  explicit environment records of pure functions (`FS`, `ResearchEnv`,
  the JSON parser parameter); the repository's own logic on top of those
  primitives is translated directly from the source.
- JavaScript numbers are modeled as `Nat` where the source guarantees
  non-negative integers, and as `Int` where call sites may pass negative
  values (for example `maxSnippets`).
- `Array.prototype.sort` (stable since ES2019) is modeled by insertion
  sort with the non-strict descending comparison, which is exactly the
  stable descending sort.
-/

namespace RM

/-- Strings are modeled as lists of characters. -/
abbrev Str := List Char

/-- Embed a Lean string literal into the model representation. -/
def S (s : String) : Str := s.toList

/-- Whitespace test used by the model of String.prototype.trim and of
whitespace splitting. -/
def isWs (c : Char) : Bool := c = ' ' || c = '\t' || c = '\n' || c = '\r'

/-- Model of String.prototype.trim: drop whitespace from both ends. -/
def trimStr (s : Str) : Str :=
  ((s.dropWhile isWs).reverse.dropWhile isWs).reverse

/-- Model of String.prototype.toLowerCase (ASCII letters). -/
def lowerStr (s : Str) : Str := s.map Char.toLower

/-- Decimal rendering of a natural number, as in JS String(n). -/
def natToStr (n : Nat) : Str := (Nat.repr n).toList

/-- Model of String.prototype.padStart(w, c): pad on the left up to width w. -/
def padStart (s : Str) (w : Nat) (c : Char) : Str :=
  List.replicate (w - s.length) c ++ s

/-- Model of String.prototype.padEnd(w, c): pad on the right up to width w. -/
def padEnd (s : Str) (w : Nat) (c : Char) : Str :=
  s ++ List.replicate (w - s.length) c

/-- Characters removed by the tokenizer's first replace, the source regex
character class of backtick, double quote, single quote, parentheses,
comma, dot, angle brackets, square brackets and curly braces. -/
def punct1 (c : Char) : Bool :=
  c = Char.ofNat 96 || c = Char.ofNat 34 || c = Char.ofNat 39 ||
  c = '(' || c = ')' || c = ',' || c = '.' || c = '<' || c = '>' ||
  c = '[' || c = ']' || c = Char.ofNat 123 || c = Char.ofNat 125

/-- Characters kept by the tokenizer's second replace (letters, digits,
underscore, colon, dot, slash, hyphen, space); everything else becomes a
space.  The source uses the Unicode classes of letters and numbers; the
model restricts them to their ASCII part. -/
def keepChar (c : Char) : Bool :=
  c.isAlpha || c.isDigit || c = '_' || c = ':' || c = '.' || c = '/' ||
  c = '-' || c = ' '

/-- First replace of tokenizeQuery: punctuation to spaces. -/
def replace1 (s : Str) : Str := s.map (fun c => if punct1 c then ' ' else c)

/-- Second replace of tokenizeQuery: non-word characters to spaces. -/
def replace2 (s : Str) : Str := s.map (fun c => if keepChar c then c else ' ')

/-- Split a string on whitespace runs, dropping empty pieces; models
split(/\s+/g) followed by trimming and dropping empty entries. -/
def splitWsAux (cur : Str) (acc : List Str) : Str → List Str
  | [] => (if cur = [] then acc else cur.reverse :: acc).reverse
  | c :: cs =>
    if isWs c then
      if cur = [] then splitWsAux [] acc cs
      else splitWsAux [] (cur.reverse :: acc) cs
    else splitWsAux (c :: cur) acc cs

/-- Split on whitespace, keeping only nonempty pieces. -/
def splitWs (s : Str) : List Str := splitWsAux [] [] s

/-- Scan for the closing occurrence of the quote character q; returns the
content before it and the remainder after it. -/
def findClose (q : Char) : Str → Option (Str × Str)
  | [] => none
  | c :: cs =>
    if c = q then some ([], cs)
    else
      match findClose q cs with
      | some (a, r) => some (c :: a, r)
      | none => none

/-- Extract the quoted phrases of the query, modeling the left-to-right
scan of matchAll over the alternation of a double-quoted and a
single-quoted group, each requiring at least one character.  The fuel
argument is only a structural-termination device; it is always called
with at least the length of the string, which bounds the scan. -/
def extractQuotedFuel : Nat → Str → List Str
  | 0, _ => []
  | _ + 1, [] => []
  | fuel + 1, c :: cs =>
    if c = Char.ofNat 34 || c = Char.ofNat 39 then
      match findClose c cs with
      | some (content, rest) =>
        if content = [] then extractQuotedFuel fuel cs
        else content :: extractQuotedFuel fuel rest
      | none => extractQuotedFuel fuel cs
    else extractQuotedFuel fuel cs

/-- Quoted-phrase extraction at its natural fuel. -/
def extractQuoted (s : Str) : List Str := extractQuotedFuel s.length s

/-- The tokenizer's stop-word list. -/
def stopWords : List Str :=
  [S "the", S "a", S "an", S "and", S "or", S "to", S "of", S "in",
   S "for", S "on", S "with", S "is", S "are", S "be", S "as", S "at",
   S "by", S "from", S "it", S "this", S "that", S "these", S "those",
   S "we", S "i", S "you", S "they", S "he", S "she", S "them", S "our",
   S "your", S "their", S "not"]

/-- Token filter: at least 3 characters and not a stop word. -/
def tokenKeep (t : Str) : Bool :=
  3 ≤ t.length && !(stopWords.contains (lowerStr t))

/-- Case-insensitive de-duplication with a budget of 48 tokens, keeping
discovery order; the source pushes the token and then stops once 48 have
been collected. -/
def dedupeCapAux : List Str → List Str → List Str → List Str
  | [], _, out => out.reverse
  | t :: ts, seen, out =>
    let key := lowerStr t
    if seen.contains key then dedupeCapAux ts seen out
    else if 48 ≤ out.length + 1 then (t :: out).reverse
    else dedupeCapAux ts (key :: seen) (t :: out)

/-- Model of tokenizeQuery from src/repo/search.ts. -/
def tokenizeQuery (query : Str) : List Str :=
  let trimmed := trimStr query
  if trimmed = [] then []
  else
    let quoted :=
      ((extractQuoted trimmed).map trimStr).filter (fun q => 3 ≤ q.length)
    let raw := splitWs (replace2 (replace1 trimmed))
    let toks := ((quoted ++ raw).map trimStr).filter tokenKeep
    dedupeCapAux toks [] []

/-- Substring containment test, the model of String.prototype.includes. -/
def strIncludes (s sub : Str) : Bool := decide (sub <:+: s)

/-- Model of shouldSkipPath from src/repo/search.ts. -/
def shouldSkipPath (relPath : Str) : Bool :=
  let p := lowerStr relPath
  (S ".git/").isPrefixOf p || strIncludes p (S "/.git/") ||
  strIncludes p (S "/node_modules/") || strIncludes p (S "/vendor/") ||
  strIncludes p (S "/target/") || strIncludes p (S "/dist/") ||
  strIncludes p (S "/build/") ||
  (S ".png").isSuffixOf p || (S ".jpg").isSuffixOf p ||
  (S ".jpeg").isSuffixOf p || (S ".gif").isSuffixOf p ||
  (S ".pdf").isSuffixOf p

/-- Per-repository cached file list, as in src/repo/search.ts. -/
structure RepoIndex where
  files : List Str
  builtAtMs : Nat
  maxFiles : Nat
deriving Repr, DecidableEq

/-- The module-level repoIndexCache map, modeled as an association list
keyed by repository path. -/
abbrev IndexCache := List (Str × RepoIndex)

/-- Map.get on the cache. -/
def cacheGet : IndexCache → Str → Option RepoIndex
  | [], _ => none
  | e :: rest, k => if e.1 = k then some e.2 else cacheGet rest k

/-- Map.set on the cache: replace the entry for k, or append a new one. -/
def cacheSet : IndexCache → Str → RepoIndex → IndexCache
  | [], k, v => [(k, v)]
  | e :: rest, k, v => if e.1 = k then (k, v) :: rest else e :: cacheSet rest k v

/-- stat result of one path: whether it is a plain file and its byte size. -/
structure StatInfo where
  isFile : Bool
  size : Nat
deriving Repr, DecidableEq

/-- Abstract file-system environment.  Each field models one of the I/O
primitives the source calls; `none` models a thrown error.  gitFiles
models runGitLsFiles (including its trim-and-drop-empties postprocessing
of the git output), walk models the recursive directory walk walkFiles,
isBinary models isProbablyBinary applied to the file bytes, and nowMs
models Date.now(). -/
structure FS where
  gitFiles : Str → Option (List Str)
  walk : Str → Nat → List Str
  stat : Str → Option StatInfo
  read : Str → Option Str
  isBinary : Str → Bool
  nowMs : Nat

/-- Model of path.join for an absolute directory and a relative path. -/
def pathJoin (a b : Str) : Str := a ++ '/' :: b

/-- The file list built by getRepoIndex on a rebuild: the git listing if
available, otherwise the directory walk, filtered by shouldSkipPath and
cut at maxFiles. -/
def buildIndexFiles (fs : FS) (repoPath : Str) (maxFiles : Nat) : List Str :=
  (((fs.gitFiles repoPath).getD (fs.walk repoPath maxFiles)).filter
      (fun p => !shouldSkipPath p)).take maxFiles

/-- Model of getRepoIndex from src/repo/search.ts, with the cache passed
explicitly: a cached entry whose bound covers the request is served
without rebuilding; otherwise the index is rebuilt and the cache entry
replaced. -/
def getRepoIndex (fs : FS) (cache : IndexCache) (repoPath : Str)
    (maxFiles : Nat) : RepoIndex × IndexCache :=
  match cacheGet cache repoPath with
  | some cached =>
    if maxFiles ≤ cached.maxFiles then
      ({ files := cached.files.take maxFiles, builtAtMs := cached.builtAtMs,
         maxFiles := cached.maxFiles }, cache)
    else
      let idx : RepoIndex :=
        { files := buildIndexFiles fs repoPath maxFiles,
          builtAtMs := fs.nowMs, maxFiles := maxFiles }
      (idx, cacheSet cache repoPath idx)
  | none =>
    let idx : RepoIndex :=
      { files := buildIndexFiles fs repoPath maxFiles,
        builtAtMs := fs.nowMs, maxFiles := maxFiles }
    (idx, cacheSet cache repoPath idx)

/-- Split file text into lines on \r\n or \n, as in split(/\r?\n/g). -/
def splitLinesAux (cur : Str) : Str → List Str
  | [] => [cur.reverse]
  | '\r' :: '\n' :: rest => cur.reverse :: splitLinesAux [] rest
  | '\n' :: rest => cur.reverse :: splitLinesAux [] rest
  | c :: rest => splitLinesAux (c :: cur) rest

/-- Line splitting of a whole file. -/
def splitLines (s : Str) : List Str := splitLinesAux [] s

/-- Model of countMatchesInLine: how many of the lowercased tokens occur
in the lowercased line. -/
def countMatchesInLine (line : Str) (tokensLower : List Str) : Nat :=
  let lower := lowerStr line
  (tokensLower.filter (fun t => strIncludes lower t)).length

/-- Accumulator loop of scoreFile: i is the 0-based index of the next
line, score the running sum, bestScore/best the best per-line hit count
and its 1-based line (first occurrence wins ties). -/
def scoreFileAux (tokensLower : List Str) :
    List Str → Nat → Nat → Nat → Option Nat → Nat × Option Nat
  | [], _, score, _, best => (score, best)
  | line :: rest, i, score, bestScore, best =>
    let hits := countMatchesInLine line tokensLower
    if 0 < hits then
      if bestScore < hits then
        scoreFileAux tokensLower rest (i + 1) (score + hits) hits (some (i + 1))
      else scoreFileAux tokensLower rest (i + 1) (score + hits) bestScore best
    else scoreFileAux tokensLower rest (i + 1) score bestScore best

/-- Model of scoreFile from src/repo/search.ts. -/
def scoreFile (lines : List Str) (tokensLower : List Str) : Nat × Option Nat :=
  scoreFileAux tokensLower lines 0 0 0 none

/-- One rendered excerpt line: the 1-based line number left-padded with
spaces to width 5, a separator, and the line (empty when out of range). -/
def renderLine (lines : List Str) (i : Nat) : Str :=
  padStart (natToStr (i + 1)) 5 ' ' ++ S " | " ++ lines.getD i []

/-- Model of makeExcerpt from src/repo/search.ts.  The window bounds are
computed in integer arithmetic exactly as in the source (Math.max and
Math.min over possibly-negative values). -/
def makeExcerpt (lines : List Str) (matchLine : Nat) (contextLines : Nat) : Str :=
  let total := lines.length
  let startIdx : Int := max 0 ((matchLine : Int) - 1 - (contextLines : Int))
  let endIdx : Int := min ((total : Int) - 1) ((matchLine : Int) - 1 + (contextLines : Int))
  List.intercalate (S "\n")
    ((List.range' startIdx.toNat (endIdx + 1 - startIdx).toNat).map (renderLine lines))

/-- Stable sort descending by a natural-number key; models the stable
Array.prototype.sort with comparator (a, b) => key(b) - key(a). -/
def sortByKeyDesc {α : Type} (key : α → Nat) (l : List α) : List α :=
  List.insertionSort (fun a b => key b ≤ key a) l

/-- A scored file candidate of searchRepo. -/
structure FileCandidate where
  filePath : Str
  score : Nat
  bestLine : Nat
deriving Repr, DecidableEq

/-- One snippet of a single-repo search result. -/
structure RepoSnippet where
  filePath : Str
  matchLine : Nat
  excerpt : Str
  score : Nat
deriving Repr, DecidableEq

/-- The result of a single-repo search. -/
structure RepoSearchResult where
  query : Str
  snippets : List RepoSnippet
  contextText : Str
  sources : List Str
deriving Repr, DecidableEq

/-- The options of searchRepo.  maxSnippets is an Int because callers may
pass any number; the source clamps it with Math.max(maxSnippets, 1). -/
structure SearchRepoOptions where
  repoPath : Str
  query : Str
  maxFiles : Nat
  maxFileBytes : Nat
  maxSnippets : Int
  snippetContextLines : Nat
  maxContextChars : Nat

/-- The per-file candidate evaluation of searchRepo's scan loop: stat the
file (skip on error), skip non-files, skip empty or oversized files, read
(skip on error), skip binary files, then score; a file with no best line
or score 0 is not a candidate. -/
def evalCandidate (fs : FS) (repoPath : Str) (maxFileBytes : Nat)
    (tokensLower : List Str) (relPath : Str) : Option FileCandidate :=
  let absPath := pathJoin repoPath relPath
  match fs.stat absPath with
  | none => none
  | some st =>
    if !st.isFile then none
    else if st.size = 0 || maxFileBytes < st.size then none
    else
      match fs.read absPath with
      | none => none
      | some content =>
        if fs.isBinary content then none
        else
          let lines := splitLines content
          match scoreFile lines tokensLower with
          | (score, some bl) =>
            if score = 0 then none
            else some { filePath := relPath, score := score, bestLine := bl }
          | (_, none) => none

/-- The candidate list of one searchRepo scan over the indexed files. -/
def repoCandidates (fs : FS) (repoPath : Str) (maxFileBytes : Nat)
    (tokensLower : List Str) (files : List Str) : List FileCandidate :=
  files.filterMap (evalCandidate fs repoPath maxFileBytes tokensLower)

/-- Append one whole block to the accumulated context, preceded by the
separator newline when the accumulator is nonempty. -/
def sepAppend (acc b : Str) : Str :=
  acc ++ (if acc = [] then [] else ['\n']) ++ b

/-- The context-text assembly loop shared by searchRepo and
searchReposLocal: append whole blocks, separated by a blank line, stopping
before any block that would push the accumulated length over maxChars.
The separator newline is not counted by the stop test, exactly as in the
source. -/
def buildContextLoop (maxChars : Nat) : List Str → Str → Str
  | [], acc => acc
  | b :: bs, acc =>
    if maxChars < acc.length + b.length then acc
    else buildContextLoop maxChars bs (sepAppend acc b)

/-- The per-snippet context block of searchRepo. -/
def repoBlock (s : RepoSnippet) : Str :=
  (S "File: " ++ s.filePath ++ ':' :: natToStr s.matchLine ++ '\n' :: s.excerpt) ++ ['\n']

/-- The snippet built for one kept candidate: re-read the file (skip on
error) and render its excerpt. -/
def snippetOfCandidate (fs : FS) (repoPath : Str) (snippetContextLines : Nat)
    (c : FileCandidate) : Option RepoSnippet :=
  match fs.read (pathJoin repoPath c.filePath) with
  | none => none
  | some text =>
    some { filePath := c.filePath, matchLine := c.bestLine,
           excerpt := makeExcerpt (splitLines text) c.bestLine snippetContextLines,
           score := c.score }

/-- Model of searchRepo from src/repo/search.ts, with the index cache
passed and returned explicitly. -/
def searchRepo (fs : FS) (cache : IndexCache) (opts : SearchRepoOptions) :
    RepoSearchResult × IndexCache :=
  let query := trimStr opts.query
  let tokens := tokenizeQuery query
  if query = [] || tokens = [] then
    ({ query := query, snippets := [], contextText := [], sources := [] }, cache)
  else
    let tokensLower := tokens.map lowerStr
    let indexed := getRepoIndex fs cache opts.repoPath opts.maxFiles
    let candidates :=
      repoCandidates fs opts.repoPath opts.maxFileBytes tokensLower indexed.1.files
    let top := (sortByKeyDesc FileCandidate.score candidates).take
      (max opts.maxSnippets 1).toNat
    let snippets :=
      top.filterMap (snippetOfCandidate fs opts.repoPath opts.snippetContextLines)
    let sources := snippets.map (fun s => s.filePath ++ ':' :: natToStr s.matchLine)
    let contextText := buildContextLoop opts.maxContextChars (snippets.map repoBlock) []
    ({ query := query, snippets := snippets, contextText := trimStr contextText,
       sources := sources }, indexed.2)

/-- A repository target, as configured: path, logical name and optional
display name. -/
structure RepoTarget where
  path : Option Str
  name : Option Str
  displayName : Option Str
deriving Repr, DecidableEq

/-- A normalized repository: resolved absolute path plus display label. -/
structure RepoWithName where
  repoPath : Str
  repoLabel : Str
deriving Repr, DecidableEq

/-- The final path segment, the model of path.basename for the paths the
aggregator resolves (trailing slashes ignored; empty when nothing is
left). -/
def basename (p : Str) : Str :=
  let q := (p.reverse.dropWhile (· = '/')).reverse
  (q.reverse.takeWhile (· ≠ '/')).reverse

/-- Model of normalizeRepos from src/repo/multiSearchLocal.ts; resolve is
the environment's path.resolve. -/
def normalizeReposAux (resolve : Str → Str) :
    List RepoTarget → List Str → List RepoWithName
  | [], _ => []
  | repo :: rest, seen =>
    let abs := resolve (trimStr (repo.path.getD []))
    if abs = [] then normalizeReposAux resolve rest seen
    else if seen.contains abs then normalizeReposAux resolve rest seen
    else
      let fallbackName := if basename abs = [] then abs else basename abs
      let label0 := trimStr (repo.displayName.getD (repo.name.getD []))
      let label := if label0 = [] then fallbackName else label0
      { repoPath := abs, repoLabel := label } ::
        normalizeReposAux resolve rest (abs :: seen)

/-- Deduplicate repositories by resolved absolute path. -/
def normalizeRepos (resolve : Str → Str) (repos : List RepoTarget) :
    List RepoWithName :=
  normalizeReposAux resolve repos []

/-- The options of the aggregator searchReposLocal. -/
structure MultiRepoSearchOptions where
  repos : List RepoTarget
  query : Str
  maxFiles : Nat
  maxFileBytes : Nat
  maxSnippets : Int
  snippetContextLines : Nat
  maxContextChars : Nat

/-- The result of the aggregator. -/
structure MultiRepoSearchResult where
  query : Str
  contextText : Str
  sources : List Str
deriving Repr, DecidableEq

/-- Model of snippetSource: absolute path plus line number. -/
def snippetSource (repoPath : Str) (s : RepoSnippet) : Str :=
  pathJoin repoPath s.filePath ++ ':' :: natToStr s.matchLine

/-- Run searchRepo over every normalized repository, threading the index
cache; models the per-repo fan-out of searchReposLocal (the cache updates
of distinct repositories commute, so the fan-out is linearized). -/
def searchPerRepo (fs : FS) (query : Str) (maxFiles maxFileBytes : Nat)
    (maxSnippets : Int) (snippetContextLines maxContextChars : Nat) :
    List RepoWithName → IndexCache →
    List (RepoWithName × List RepoSnippet) × IndexCache
  | [], cache => ([], cache)
  | r :: rs, cache =>
    let one := searchRepo fs cache
      { repoPath := r.repoPath, query := query, maxFiles := maxFiles,
        maxFileBytes := maxFileBytes, maxSnippets := maxSnippets,
        snippetContextLines := snippetContextLines,
        maxContextChars := maxContextChars }
    let rest := searchPerRepo fs query maxFiles maxFileBytes maxSnippets
      snippetContextLines maxContextChars rs one.2
    ((r, one.1.snippets) :: rest.1, rest.2)

/-- The merged candidate list of the aggregator: every repository's
snippets, tagged with their repository. -/
def multiAll (results : List (RepoWithName × List RepoSnippet)) :
    List (RepoWithName × RepoSnippet) :=
  results.flatMap (fun rs => rs.2.map (fun s => (rs.1, s)))

/-- The merge+sort step of the aggregator: one global list, stable-sorted
by score descending. -/
def mergeRankedSnippets (all : List (RepoWithName × RepoSnippet)) :
    List (RepoWithName × RepoSnippet) :=
  sortByKeyDesc (fun e => e.2.score) all

/-- Deduplicate the selected snippet sources, preserving rank order. -/
def dedupeSources : List Str → List Str → List Str
  | [], _ => []
  | s :: ss, seen =>
    if seen.contains s then dedupeSources ss seen
    else s :: dedupeSources ss (s :: seen)

/-- The per-snippet context block of the aggregator, additionally headed
by the repository label. -/
def multiBlock (e : RepoWithName × RepoSnippet) : Str :=
  (S "Repo: " ++ e.1.repoLabel ++ '\n' :: S "File: " ++
    snippetSource e.1.repoPath e.2 ++ '\n' :: e.2.excerpt) ++ ['\n']

/-- The globally selected entries of the aggregator: merged, sorted by
score descending, cut at max(maxSnippets, 1); empty in the aggregator's
early-return cases. -/
def multiSelected (fs : FS) (cache : IndexCache) (opts : MultiRepoSearchOptions)
    (resolve : Str → Str) : List (RepoWithName × RepoSnippet) :=
  let query := trimStr opts.query
  let repos := normalizeRepos resolve opts.repos
  if query = [] || repos = [] then []
  else
    let results := searchPerRepo fs query opts.maxFiles opts.maxFileBytes
      (max opts.maxSnippets 1) opts.snippetContextLines opts.maxContextChars
      repos cache
    (mergeRankedSnippets (multiAll results.1)).take (max opts.maxSnippets 1).toNat

/-- Model of searchReposLocal from src/repo/multiSearchLocal.ts, with the
index cache passed and returned explicitly and path.resolve supplied by
the environment. -/
def searchReposLocal (fs : FS) (resolve : Str → Str) (cache : IndexCache)
    (opts : MultiRepoSearchOptions) : MultiRepoSearchResult × IndexCache :=
  let query := trimStr opts.query
  let repos := normalizeRepos resolve opts.repos
  if query = [] || repos = [] then
    ({ query := query, contextText := [], sources := [] }, cache)
  else
    let results := searchPerRepo fs query opts.maxFiles opts.maxFileBytes
      (max opts.maxSnippets 1) opts.snippetContextLines opts.maxContextChars
      repos cache
    let selected :=
      (mergeRankedSnippets (multiAll results.1)).take (max opts.maxSnippets 1).toNat
    let sources := dedupeSources (selected.map (fun e => snippetSource e.1.repoPath e.2)) []
    let contextText := buildContextLoop opts.maxContextChars (selected.map multiBlock) []
    ({ query := query, contextText := trimStr contextText, sources := sources },
      results.2)

/-- Observable state of one task's promise. -/
inductive FutureState where
  | unsettled
  | resolved (value : MultiRepoSearchResult)
  | rejected (msg : Str)
deriving Repr, DecidableEq

/-- One worker slot of the pool: busy flag, in-flight task id, and
whether the underlying worker thread has been terminated. -/
structure WorkerSlot where
  busy : Bool
  taskId : Option Nat
  terminated : Bool
deriving Repr, DecidableEq

/-- State of RepoSearchWorkerPool: queue and pending hold task ids; the
futures table records the observable state of every task's promise. -/
structure PoolState where
  queueMax : Nat
  workers : List WorkerSlot
  queue : List Nat
  pendingIds : List Nat
  futures : List (Nat × FutureState)
  closed : Bool
  nextId : Nat
deriving Repr, DecidableEq

/-- Read a task's future. -/
def futGet : List (Nat × FutureState) → Nat → Option FutureState
  | [], _ => none
  | e :: rest, id => if e.1 = id then some e.2 else futGet rest id

/-- Write a task's future (replace or append). -/
def futSet : List (Nat × FutureState) → Nat → FutureState →
    List (Nat × FutureState)
  | [], id, f => [(id, f)]
  | e :: rest, id, f => if e.1 = id then (id, f) :: rest else e :: futSet rest id f

/-- The pool constructor: size clamped to at least 1, queueMax to at
least 0, all workers spawned idle. -/
def poolInit (size queueMax : Int) : PoolState :=
  { queueMax := (max queueMax 0).toNat,
    workers := List.replicate (max size 1).toNat
      { busy := false, taskId := none, terminated := false },
    queue := [], pendingIds := [], futures := [], closed := false, nextId := 1 }

/-- Model of RepoSearchWorkerPool.close: mark closed, reject every future
held in the pending map, clear the pending map and the queue, and
terminate all workers.  Note the queue is cleared without settling the
futures of the tasks it holds, exactly as in the source. -/
def poolClose (s : PoolState) : PoolState :=
  if s.closed then s
  else
    { s with
      closed := true,
      futures := s.futures.map (fun e =>
        if s.pendingIds.contains e.1 then
          (e.1, FutureState.rejected (S "Repo search worker pool closed"))
        else e),
      pendingIds := [],
      queue := [],
      workers := s.workers.map (fun w => { w with terminated := true }) }

/-- Index of the first idle worker, if any. -/
def findIdle : List WorkerSlot → Option Nat
  | [] => none
  | w :: ws => if !w.busy then some 0 else (findIdle ws).map (· + 1)

/-- Mark the i-th worker as busy with the given task. -/
def setAssigned : List WorkerSlot → Nat → Nat → List WorkerSlot
  | [], _, _ => []
  | w :: ws, 0, id => { w with busy := true, taskId := some id } :: ws
  | w :: ws, i + 1, id => w :: setAssigned ws i id

/-- JS Number.MAX_SAFE_INTEGER. -/
def maxSafeInteger : Nat := 2 ^ 53 - 1

/-- How one run call concluded, synchronously: rejected because the pool
is closed; dispatched to an idle worker (future pending); resolved at
once with an empty result (backpressure degrade); or enqueued. -/
inductive RunOutcome where
  | rejectedClosed
  | dispatched (id : Nat) (workerIndex : Nat)
  | resolvedEmpty (id : Nat) (value : MultiRepoSearchResult)
  | queued (id : Nat)
deriving Repr, DecidableEq

/-- Model of RepoSearchWorkerPool.run: reject when closed; dispatch to an
idle worker; with a zero-capacity or full queue resolve synchronously
with an empty result; otherwise enqueue FIFO. -/
def poolRun (s : PoolState) (payload : MultiRepoSearchOptions) :
    PoolState × RunOutcome :=
  if s.closed then (s, RunOutcome.rejectedClosed)
  else
    let id := s.nextId
    let s1 := { s with nextId := if maxSafeInteger ≤ s.nextId then 1 else s.nextId + 1 }
    match findIdle s1.workers with
    | some i =>
      ({ s1 with workers := setAssigned s1.workers i id,
                 pendingIds := s1.pendingIds ++ [id],
                 futures := futSet s1.futures id FutureState.unsettled },
       RunOutcome.dispatched id i)
    | none =>
      if s1.queueMax = 0 then
        let v : MultiRepoSearchResult :=
          { query := trimStr payload.query, contextText := [], sources := [] }
        ({ s1 with futures := futSet s1.futures id (FutureState.resolved v) },
         RunOutcome.resolvedEmpty id v)
      else if s1.queueMax ≤ s1.queue.length then
        let v : MultiRepoSearchResult :=
          { query := trimStr payload.query, contextText := [], sources := [] }
        ({ s1 with futures := futSet s1.futures id (FutureState.resolved v) },
         RunOutcome.resolvedEmpty id v)
      else
        ({ s1 with queue := s1.queue ++ [id],
                   futures := futSet s1.futures id FutureState.unsettled },
         RunOutcome.queued id)

/-- JSON values, for the planner response. -/
inductive Json where
  | null
  | bool (b : Bool)
  | num (n : Int)
  | str (s : Str)
  | arr (elems : List Json)
  | obj (fields : List (Str × Json))

/-- Property access on a parsed JSON value; undefined on non-objects. -/
def getField : Json → Str → Option Json
  | Json.obj fields, k => (fields.find? (fun f => f.1 == k)).map (fun f => f.2)
  | _, _ => none

/-- Index of the first occurrence of a character. -/
def idxOfChar (c : Char) : Str → Option Nat
  | [] => none
  | d :: ds => if d = c then some 0 else (idxOfChar c ds).map (· + 1)

/-- Index of the last occurrence of a character. -/
def lastIdxOfChar (c : Char) (s : Str) : Option Nat :=
  (idxOfChar c s.reverse).map (fun i => s.length - 1 - i)

/-- Model of extractJsonObject from src/analysis/researchFollowup.ts: the
text from the first opening curly brace to the last closing curly brace,
undefined when absent or not in order. -/
def extractJsonObject (text : Str) : Option Str :=
  match idxOfChar (Char.ofNat 123) text, lastIdxOfChar (Char.ofNat 125) text with
  | some start, some stop =>
    if stop ≤ start then none
    else some ((text.take (stop + 1)).drop start)
  | _, _ => none

/-- Model of normalizeList's loop: keep trimmed nonempty unique strings,
pushing and then stopping once max entries are collected. -/
def normalizeListAux (max : Nat) : List Json → List Str → List Str
  | [], out => out.reverse
  | item :: rest, out =>
    match item with
    | Json.str s =>
      let v := trimStr s
      if v = [] then normalizeListAux max rest out
      else if out.contains v then normalizeListAux max rest out
      else if max ≤ out.length + 1 then (v :: out).reverse
      else normalizeListAux max rest (v :: out)
    | _ => normalizeListAux max rest out

/-- Model of normalizeList from src/analysis/researchFollowup.ts. -/
def normalizeList (raw : Option Json) (max : Nat) : List Str :=
  match raw with
  | some (Json.arr xs) => normalizeListAux max xs []
  | _ => []

/-- The planner's structured suggestion. -/
structure ResearchFollowupPlan where
  done : Bool
  repoQueries : List Str
  tidbAiQueries : List Str
  askUser : List Str
deriving Repr, DecidableEq

/-- The safe default plan the source uses for every failure path. -/
def fallbackPlan : ResearchFollowupPlan :=
  { done := true, repoQueries := [], tidbAiQueries := [], askUser := [] }

/-- The configuration slice analyzeResearchFollowups reads. -/
structure RFConfig where
  modeIsLlm : Bool
  openaiApiKey : Str
  repoPaths : List Str
  tidbAiEnabled : Bool

/-- Model of analyzeResearchFollowups from
src/analysis/researchFollowup.ts.  providerText is the final text
produced by the LLM call chain (none when every call threw, which the
source's outer catch turns into the fallback); parseJson models
JSON.parse (none when it throws, likewise caught). -/
def analyzeResearchFollowups (cfg : RFConfig) (providerText : Option Str)
    (parseJson : Str → Option Json) : ResearchFollowupPlan :=
  if !cfg.modeIsLlm || cfg.openaiApiKey = [] then fallbackPlan
  else
    let hasRepo := !cfg.repoPaths.isEmpty
    let hasTidbAi := cfg.tidbAiEnabled
    match providerText with
    | none => fallbackPlan
    | some outText =>
      match extractJsonObject outText with
      | none => fallbackPlan
      | some jsonText =>
        match parseJson jsonText with
        | none => fallbackPlan
        | some parsed =>
          let done :=
            match getField parsed (S "done") with
            | some (Json.bool b) => b
            | _ => fallbackPlan.done
          let repoQueries :=
            if hasRepo then
              (normalizeList (getField parsed (S "repo_queries")) 2).map (List.take 120)
            else []
          let tidbAiQueries :=
            if hasTidbAi then
              (normalizeList (getField parsed (S "tidb_ai_queries")) 2).map (List.take 120)
            else []
          let askUser := (normalizeList (getField parsed (S "ask_user")) 3).map (List.take 200)
          { done := done, repoQueries := repoQueries,
            tidbAiQueries := tidbAiQueries, askUser := askUser }

/-- One accumulated evidence block of the research controller. -/
structure ContextBlock where
  query : Str
  contextText : Str
  sources : List Str
deriving Repr, DecidableEq

/-- Model of joinBlocks from src/research/collectAnswerContext.ts: join
the nonempty blocks, each headed by its query, with a divider; truncate
over maxChars; undefined when nothing is left. -/
def joinBlocks (blocks : List ContextBlock) (maxChars : Nat) : Option Str :=
  let parts := blocks.filterMap (fun b =>
    let body := trimStr b.contextText
    if body = [] then none
    else some (trimStr
      ((if b.query = [] then [] else S "Query: " ++ b.query ++ ['\n']) ++ body)))
  let merged := trimStr (List.intercalate (S "\n\n---\n\n") parts)
  if merged = [] then none
  else if merged.length ≤ maxChars then some merged
  else some (merged.take (maxChars - 20) ++ S "\n\n…(truncated)")

/-- Model of mergeSources: flatten, trim, drop empties, dedupe, stop once
max(1, max) entries are collected. -/
def mergeSourcesAux (max : Nat) : List Str → List Str → List Str
  | [], out => out.reverse
  | item :: rest, out =>
    let v := trimStr item
    if v = [] then mergeSourcesAux max rest out
    else if out.contains v then mergeSourcesAux max rest out
    else if Nat.max 1 max ≤ out.length + 1 then (v :: out).reverse
    else mergeSourcesAux max rest (v :: out)

/-- Model of mergeSources from src/research/collectAnswerContext.ts. -/
def mergeSources (lists : List (List Str)) (max : Nat) : List Str :=
  mergeSourcesAux max lists.flatten []

/-- The recording of proposed clarifying questions: trim, drop empties,
dedupe against what is already recorded, stop once 3 are recorded. -/
def addFollowUps (existing : List Str) : List Str → List Str
  | [] => existing
  | q :: rest =>
    let v := trimStr q
    if v = [] then addFollowUps existing rest
    else if existing.contains v then addFollowUps existing rest
    else if 3 ≤ existing.length + 1 then existing ++ [v]
    else addFollowUps (existing ++ [v]) rest

/-- A successful external-evidence lookup. -/
structure TidbSuccess where
  contextText : Str
  sources : List Str
deriving Repr, DecidableEq

/-- Outcome of one external-evidence lookup: success, or a typed failure
with kind and message. -/
inductive TidbOutcome where
  | ok (result : TidbSuccess)
  | err (kind : Str) (error : Str)
deriving Repr, DecidableEq

/-- The external collaborators of the research controller, abstracted as
response functions: the round-1 classification (analyzeCodeQuestion), the
external-evidence gate (shouldQueryTidbAi), the repo search collaborator
(searchRepos, keyed by query), the external evidence provider
(queryTidbAi, keyed by query), and the planner (analyzeResearchFollowups,
keyed by round and by the accumulated context it is shown). -/
structure ResearchEnv where
  needsRepoLookup : Bool
  searchQuery : Option Str
  shouldTidb : Bool
  searchRepos : Str → MultiRepoSearchResult
  tidb : Str → TidbOutcome
  plan : Nat → Option Str → Option Str → ResearchFollowupPlan

/-- The configuration slice the controller reads. -/
structure ControllerConfig where
  llmActive : Bool
  reposConfigured : Bool
  repoMaxContextChars : Nat
  tidbAiMaxContextChars : Nat

/-- The controller's accumulated state.  issuedRepo and issuedTidb record
every query actually sent to a collaborator, tagged with its round; they
are the model's rendering of the I/O calls and are written exactly when
the source performs a search. -/
structure ResearchState where
  repoBlocks : List ContextBlock
  tidbBlocks : List ContextBlock
  followUpQuestions : List Str
  seenRepoQueries : List Str
  seenTidbQueries : List Str
  canTidb : Bool
  tidbFailures : List Str
  issuedRepo : List (Nat × Str)
  issuedTidb : List (Nat × Str)
deriving Repr, DecidableEq

/-- addRepo of the controller: keep the block only when its body is
nonempty after trimming. -/
def addRepoBlock (st : ResearchState) (q : Str) (res : MultiRepoSearchResult) :
    ResearchState :=
  if trimStr res.contextText = [] then st
  else { st with repoBlocks := st.repoBlocks ++
          [{ query := q, contextText := trimStr res.contextText, sources := res.sources }] }

/-- Processing of one external-evidence outcome in rounds 2..3: a
successful nonempty result is recorded; a failure records the message and
disables further external lookups unless the failure kind is empty. -/
def applyTidbResult (st : ResearchState) (q : Str) (res : TidbOutcome) :
    ResearchState :=
  match res with
  | TidbOutcome.ok r =>
    if trimStr r.contextText = [] then st
    else { st with tidbBlocks := st.tidbBlocks ++
            [{ query := q, contextText := trimStr r.contextText, sources := r.sources }] }
  | TidbOutcome.err kind error =>
    { st with tidbFailures := st.tidbFailures ++ [error],
              canTidb := st.canTidb && (kind == S "empty") }

/-- Model of the follow-up round loop of collectAnswerContext (rounds
2..maxResearchRounds).  fuel is the number of remaining loop iterations;
the source's for-loop gives it maxResearchRounds - 1 = 2 at entry. -/
def researchLoop (cfg : ControllerConfig) (env : ResearchEnv) :
    Nat → Nat → ResearchState → ResearchState
  | 0, _, st => st
  | fuel + 1, round, st =>
    if !cfg.llmActive then st
    else
      let repoCtx := joinBlocks st.repoBlocks cfg.repoMaxContextChars
      let tidbCtx := joinBlocks st.tidbBlocks cfg.tidbAiMaxContextChars
      let plan := env.plan round repoCtx tidbCtx
      if plan.askUser ≠ [] then
        { st with followUpQuestions := addFollowUps st.followUpQuestions plan.askUser }
      else
        let nextRepoQueries :=
          if cfg.reposConfigured then
            (((plan.repoQueries.map trimStr).filter (fun q => q ≠ [])).filter
              (fun q => !st.seenRepoQueries.contains q)).take 2
          else []
        let nextTidbQueries :=
          if st.canTidb then
            (((plan.tidbAiQueries.map trimStr).filter (fun q => q ≠ [])).filter
              (fun q => !st.seenTidbQueries.contains q)).take 2
          else []
        if nextRepoQueries = [] && nextTidbQueries = [] then st
        else
          let st1 := { st with
            seenRepoQueries := st.seenRepoQueries ++ nextRepoQueries,
            seenTidbQueries := st.seenTidbQueries ++ nextTidbQueries,
            issuedRepo := st.issuedRepo ++ nextRepoQueries.map (fun q => (round, q)),
            issuedTidb := st.issuedTidb ++ nextTidbQueries.map (fun q => (round, q)) }
          let st2 := nextRepoQueries.foldl
            (fun s q => addRepoBlock s q (env.searchRepos q)) st1
          let st3 := nextTidbQueries.foldl
            (fun s q => applyTidbResult s q (env.tidb q)) st2
          if plan.done then st3
          else researchLoop cfg env fuel (round + 1) st3

/-- The controller's final output. -/
structure CollectedAnswerContext where
  repoContext : Option Str
  externalContext : Option Str
  sources : List Str
  followUpQuestions : List Str
  warnings : List Str
deriving Repr, DecidableEq

/-- normalizeQuery of the controller: trimmed text, or undefined. -/
def normalizeQuery (raw : Option Str) : Option Str :=
  let v := trimStr (raw.getD [])
  if v = [] then none else some v

/-- The controller's round budget. -/
def maxResearchRounds : Nat := 3

/-- Model of collectAnswerContext from
src/research/collectAnswerContext.ts: round-1 classification and initial
queries, the follow-up round loop, then final assembly of contexts,
sources and warnings. -/
def collectAnswerContext (cfg : ControllerConfig) (env : ResearchEnv)
    (question : Str) : CollectedAnswerContext :=
  let canRepo := cfg.reposConfigured
  let canTidb0 := env.shouldTidb
  let initialRepoQuery :=
    if env.needsRepoLookup && canRepo then normalizeQuery env.searchQuery else none
  let initialTidbQuery := if canTidb0 then normalizeQuery (some question) else none
  let st0 : ResearchState :=
    { repoBlocks := [], tidbBlocks := [], followUpQuestions := [],
      seenRepoQueries := match initialRepoQuery with | some q => [q] | none => [],
      seenTidbQueries := match initialTidbQuery with | some q => [q] | none => [],
      canTidb := canTidb0, tidbFailures := [], issuedRepo := [], issuedTidb := [] }
  let st1 :=
    match initialRepoQuery with
    | some q =>
      let st := { st0 with issuedRepo := st0.issuedRepo ++ [(1, q)] }
      let res := env.searchRepos q
      if trimStr res.contextText ≠ [] then addRepoBlock st q res else st
    | none => st0
  let st2 :=
    match initialTidbQuery with
    | some q =>
      let st := { st1 with issuedTidb := st1.issuedTidb ++ [(1, q)] }
      match env.tidb q with
      | TidbOutcome.ok r =>
        if trimStr r.contextText ≠ [] then
          { st with tidbBlocks := st.tidbBlocks ++
              [{ query := q, contextText := trimStr r.contextText, sources := r.sources }] }
        else st
      | TidbOutcome.err kind error =>
        { st with tidbFailures := st.tidbFailures ++ [error],
                  canTidb := st.canTidb && (kind == S "empty") }
    | none => st1
  let stFinal := researchLoop cfg env (maxResearchRounds - 1) 2 st2
  let repoContext := joinBlocks stFinal.repoBlocks cfg.repoMaxContextChars
  let externalContext := joinBlocks stFinal.tidbBlocks cfg.tidbAiMaxContextChars
  let sources := mergeSources
    [stFinal.repoBlocks.flatMap (fun b => b.sources),
     stFinal.tidbBlocks.flatMap (fun b => b.sources)] 20
  let warnings :=
    if initialTidbQuery.isSome && externalContext.isNone then
      let msg := (stFinal.tidbFailures.find? (fun x => trimStr x ≠ [])).getD
        (S "tidb.ai returned no usable content")
      [S "TiDB.ai is unavailable for this question (" ++ msg ++
        S "). Answering without TiDB.ai context."]
    else []
  { repoContext := repoContext, externalContext := externalContext,
    sources := sources, followUpQuestions := stFinal.followUpQuestions,
    warnings := warnings }

/-- The per-snippet blocks a single-repo search result feeds into the
context assembly. -/
def repoBlocksOf (fs : FS) (cache : IndexCache) (opts : SearchRepoOptions) :
    List Str :=
  ((searchRepo fs cache opts).1.snippets).map repoBlock

/-- The per-snippet blocks the aggregator feeds into the context
assembly. -/
def multiBlocksOf (fs : FS) (resolve : Str → Str) (cache : IndexCache)
    (opts : MultiRepoSearchOptions) : List Str :=
  (multiSelected fs cache opts resolve).map multiBlock

/-- A string that ends with a newline; every context block does. -/
def endsNl (s : Str) : Prop := ∃ t, s = t ++ ['\n']

/-- A file system with no repositories; concrete test fixture. -/
def fsEmpty : FS :=
  { gitFiles := fun _ => none, walk := fun _ _ => [], stat := fun _ => none,
    read := fun _ => none, isBinary := fun _ => false, nowMs := 0 }

/-- A file system where every repository holds one text file f.md whose
content is the word needle; concrete test fixture. -/
def fsNeedle : FS :=
  { gitFiles := fun _ => some [S "f.md"],
    walk := fun _ _ => [],
    stat := fun _ => some { isFile := true, size := 6 },
    read := fun _ => some (S "needle"),
    isBinary := fun _ => false,
    nowMs := 0 }

/-- Concrete repository target /a. -/
def tgtA : RepoTarget :=
  { path := some (S "/a"), name := some (S "a"), displayName := none }

/-- Concrete repository target /b. -/
def tgtB : RepoTarget :=
  { path := some (S "/b"), name := some (S "b"), displayName := none }

/-- Concrete single-repo search options over /a for the query needle. -/
def optsNeedle : SearchRepoOptions :=
  { repoPath := S "/a", query := S "needle", maxFiles := 10, maxFileBytes := 100,
    maxSnippets := 2, snippetContextLines := 0, maxContextChars := 1000 }

/-- Concrete aggregator options listing the repositories as A then B. -/
def moptsAB : MultiRepoSearchOptions :=
  { repos := [tgtA, tgtB], query := S "needle", maxFiles := 10, maxFileBytes := 100,
    maxSnippets := 2, snippetContextLines := 0, maxContextChars := 1000 }

/-- The same aggregator options with the repositories listed as B then A. -/
def moptsBA : MultiRepoSearchOptions := { moptsAB with repos := [tgtB, tgtA] }

/-- A concrete run payload for the pool scenarios. -/
def payloadW : MultiRepoSearchOptions :=
  { repos := [], query := S " q ", maxFiles := 0, maxFileBytes := 0,
    maxSnippets := 0, snippetContextLines := 0, maxContextChars := 0 }

/-- Pool scenario: size 1, queue capacity 1, after one dispatched task. -/
def poolS1 : PoolState := (poolRun (poolInit 1 1) payloadW).1

/-- Pool scenario: after a second task entered the queue. -/
def poolS2 : PoolState := (poolRun poolS1 payloadW).1

/-- Pool scenario: the pool is then closed. -/
def poolClosed : PoolState := poolClose poolS2

/-- Concrete merged aggregator entry from repository /a with score 5. -/
def entA : RepoWithName × RepoSnippet :=
  ({ repoPath := S "/a", repoLabel := S "a" },
   { filePath := S "f.md", matchLine := 1, excerpt := S "x", score := 5 })

/-- Concrete merged aggregator entry from repository /b with score 3. -/
def entB : RepoWithName × RepoSnippet :=
  ({ repoPath := S "/b", repoLabel := S "b" },
   { filePath := S "g.md", matchLine := 1, excerpt := S "y", score := 3 })

/-- Modelled from the spec wording, for comparison with the source's
makeExcerpt: the same excerpt window but with each 1-based line number
right-padded (spaces appended on the right) to width 5, as the sentence
"right-padded to width 5" literally reads. -/
def makeExcerptRightPadded (lines : List Str) (matchLine : Nat)
    (contextLines : Nat) : Str :=
  let total := lines.length
  let startIdx : Int := max 0 ((matchLine : Int) - 1 - (contextLines : Int))
  let endIdx : Int := min ((total : Int) - 1) ((matchLine : Int) - 1 + (contextLines : Int))
  List.intercalate (S "\n")
    ((List.range' startIdx.toNat (endIdx + 1 - startIdx).toNat).map
      (fun i => padEnd (natToStr (i + 1)) 5 ' ' ++ S " | " ++ lines.getD i []))

/-- The candidate list searchRepo scans, as a function of its inputs. -/
def searchRepoCandidates (fs : FS) (cache : IndexCache)
    (opts : SearchRepoOptions) : List FileCandidate :=
  repoCandidates fs opts.repoPath opts.maxFileBytes
    ((tokenizeQuery (trimStr opts.query)).map lowerStr)
    (getRepoIndex fs cache opts.repoPath opts.maxFiles).1.files

/-- Concrete controller configuration with the LLM mode active. -/
def cfgW : ControllerConfig :=
  { llmActive := true, reposConfigured := true, repoMaxContextChars := 100,
    tidbAiMaxContextChars := 100 }

/-- Concrete research environment whose planner proposes one clarifying
question at every round. -/
def envAsk : ResearchEnv :=
  { needsRepoLookup := true, searchQuery := some (S "q"), shouldTidb := false,
    searchRepos := fun _ => { query := S "q", contextText := [], sources := [] },
    tidb := fun _ => TidbOutcome.err (S "empty") (S "none"),
    plan := fun _ _ _ =>
      { done := false, repoQueries := [S "r1"], tidbAiQueries := [],
        askUser := [S "Which TiDB version?"] } }

/-- Concrete empty research state at the start of round 2. -/
def stW : ResearchState :=
  { repoBlocks := [], tidbBlocks := [], followUpQuestions := [],
    seenRepoQueries := [], seenTidbQueries := [], canTidb := false,
    tidbFailures := [], issuedRepo := [], issuedTidb := [] }

theorem trimStr_length_le (s : Str) : (trimStr s).length ≤ s.length := by
  unfold trimStr
  have h1 : (s.dropWhile isWs).length ≤ s.length :=
    (List.dropWhile_sublist _).length_le
  have h2 : ((s.dropWhile isWs).reverse.dropWhile isWs).length ≤
      (s.dropWhile isWs).reverse.length :=
    (List.dropWhile_sublist _).length_le
  simp only [List.length_reverse] at *
  omega

theorem trimStr_append_newline_length (t : Str) :
    (trimStr (t ++ ['\n'])).length ≤ t.length := by
  unfold trimStr
  rw [List.dropWhile_append]
  by_cases h : (List.dropWhile isWs t).isEmpty = true
  · rw [if_pos h]
    have : List.dropWhile isWs ['\n'] = ([] : Str) := by
      simp [List.dropWhile, isWs]
    rw [this]
    simp
  · rw [if_neg h]
    rw [List.reverse_append]
    have hnl : List.reverse ['\n'] = ['\n'] := rfl
    rw [hnl]
    have : List.dropWhile isWs ('\n' :: (List.dropWhile isWs t).reverse) =
        List.dropWhile isWs (List.dropWhile isWs t).reverse := by
      simp [List.dropWhile_cons, isWs]
    simp only [List.singleton_append, this]
    have h2 : (List.dropWhile isWs (List.dropWhile isWs t).reverse).length ≤
        (List.dropWhile isWs t).reverse.length :=
      (List.dropWhile_sublist _).length_le
    have h3 : (List.dropWhile isWs t).length ≤ t.length :=
      (List.dropWhile_sublist _).length_le
    simp only [List.length_reverse] at *
    omega

theorem buildContextLoop_bound (maxChars : Nat) :
    ∀ (blocks : List Str) (acc : Str),
      (∀ b ∈ blocks, endsNl b) →
      (acc = [] ∨ (endsNl acc ∧ acc.length ≤ maxChars + 1)) →
      (buildContextLoop maxChars blocks acc = [] ∨
        (endsNl (buildContextLoop maxChars blocks acc) ∧
          (buildContextLoop maxChars blocks acc).length ≤ maxChars + 1)) := by
  intro blocks
  induction blocks with
  | nil => intro acc _ hacc; simpa [buildContextLoop] using hacc
  | cons b bs ih =>
    intro acc hb hacc
    obtain ⟨tb, htb⟩ := hb b (List.mem_cons_self b bs)
    by_cases hstop : maxChars < acc.length + b.length
    · simpa [buildContextLoop, if_pos hstop] using hacc
    · rw [buildContextLoop, if_neg hstop]
      apply ih _ (fun x hx => hb x (List.mem_cons_of_mem b hx))
      right
      constructor
      · refine ⟨acc ++ (if acc = [] then [] else ['\n']) ++ tb, ?_⟩
        simp [sepAppend, htb]
      · have hle : acc.length + b.length ≤ maxChars := Nat.not_lt.mp hstop
        by_cases hem : acc = []
        · subst hem
          simp [sepAppend]
          omega
        · simp [sepAppend, hem]
          omega

theorem buildContextLoop_prefix (maxChars : Nat) :
    ∀ (blocks : List Str) (acc : Str),
      ∃ k ≤ blocks.length,
        buildContextLoop maxChars blocks acc = (blocks.take k).foldl sepAppend acc ∧
        (k < blocks.length →
          maxChars < ((blocks.take k).foldl sepAppend acc).length +
            (blocks.getD k []).length) := by
  intro blocks
  induction blocks with
  | nil =>
    intro acc
    exact ⟨0, Nat.le_refl 0, rfl, fun h => absurd h (Nat.lt_irrefl 0)⟩
  | cons b bs ih =>
    intro acc
    by_cases hstop : maxChars < acc.length + b.length
    · refine ⟨0, Nat.zero_le _, ?_, ?_⟩
      · simp [buildContextLoop, if_pos hstop]
      · intro _
        simpa [List.take, List.foldl, List.getD] using hstop
    · obtain ⟨k, hk, heq, hmax⟩ := ih (sepAppend acc b)
      refine ⟨k + 1, Nat.succ_le_succ hk, ?_, ?_⟩
      · rw [buildContextLoop, if_neg hstop, heq]
        simp [List.take, List.foldl]
      · intro hlt
        have hklt : k < bs.length := Nat.lt_of_succ_lt_succ hlt
        have := hmax hklt
        simpa [List.take, List.foldl, List.getD] using this

theorem contextLoop_spec (maxChars : Nat) (blocks : List Str)
    (hb : ∀ b ∈ blocks, endsNl b) :
    (trimStr (buildContextLoop maxChars blocks [])).length ≤ maxChars ∧
    ∃ k ≤ blocks.length,
      trimStr (buildContextLoop maxChars blocks []) =
        trimStr ((blocks.take k).foldl sepAppend []) ∧
      (k < blocks.length →
        maxChars < ((blocks.take k).foldl sepAppend []).length +
          (blocks.getD k []).length) := by
  constructor
  · rcases buildContextLoop_bound maxChars blocks [] hb (Or.inl rfl) with hnil | ⟨⟨t, ht⟩, hlen⟩
    · rw [hnil]; exact Nat.zero_le _
    · rw [ht]
      have := trimStr_append_newline_length t
      have hlen2 : t.length + 1 ≤ maxChars + 1 := by
        rw [ht] at hlen
        simpa [List.length_append] using hlen
      omega
  · obtain ⟨k, hk, heq, hmax⟩ := buildContextLoop_prefix maxChars blocks []
    exact ⟨k, hk, by rw [heq], hmax⟩

theorem repoBlock_endsNl (s : RepoSnippet) : endsNl (repoBlock s) :=
  ⟨S "File: " ++ s.filePath ++ ':' :: natToStr s.matchLine ++ '\n' :: s.excerpt, rfl⟩

theorem multiBlock_endsNl (e : RepoWithName × RepoSnippet) : endsNl (multiBlock e) :=
  ⟨S "Repo: " ++ e.1.repoLabel ++ '\n' :: S "File: " ++
    snippetSource e.1.repoPath e.2 ++ '\n' :: e.2.excerpt, rfl⟩

theorem searchRepo_contextText_eq (fs : FS) (cache : IndexCache)
    (opts : SearchRepoOptions) :
    (searchRepo fs cache opts).1.contextText =
      trimStr (buildContextLoop opts.maxContextChars (repoBlocksOf fs cache opts) []) := by
  unfold repoBlocksOf searchRepo
  dsimp only
  by_cases h : (decide (trimStr opts.query = []) ||
      decide (tokenizeQuery (trimStr opts.query) = [])) = true
  · rw [if_pos h]; rfl
  · rw [if_neg h]

theorem searchReposLocal_contextText_eq (fs : FS) (resolve : Str → Str)
    (cache : IndexCache) (opts : MultiRepoSearchOptions) :
    (searchReposLocal fs resolve cache opts).1.contextText =
      trimStr (buildContextLoop opts.maxContextChars
        (multiBlocksOf fs resolve cache opts) []) := by
  unfold multiBlocksOf multiSelected searchReposLocal
  dsimp only
  by_cases h : (decide (trimStr opts.query = []) ||
      decide (normalizeRepos resolve opts.repos = [])) = true
  · rw [if_pos h, if_pos h]; rfl
  · rw [if_neg h, if_neg h]

/-- C1: for every input, the contextText assembled by single-repo search
(searchRepo) and by the aggregator (searchReposLocal) never exceeds
maxContextChars in length, and it is the (trimmed) concatenation of a
prefix of whole per-snippet blocks joined by blank lines — never a
partially cut block; moreover the prefix ends exactly when the next block
would push the accumulated length over the budget. -/
theorem c1_contextText_block_truncation :
    (∀ (fs : FS) (cache : IndexCache) (opts : SearchRepoOptions),
      (searchRepo fs cache opts).1.contextText.length ≤ opts.maxContextChars ∧
      ∃ k ≤ (repoBlocksOf fs cache opts).length,
        (searchRepo fs cache opts).1.contextText =
          trimStr (((repoBlocksOf fs cache opts).take k).foldl sepAppend []) ∧
        (k < (repoBlocksOf fs cache opts).length →
          opts.maxContextChars <
            (((repoBlocksOf fs cache opts).take k).foldl sepAppend []).length +
            ((repoBlocksOf fs cache opts).getD k []).length)) ∧
    (∀ (fs : FS) (resolve : Str → Str) (cache : IndexCache)
        (opts : MultiRepoSearchOptions),
      (searchReposLocal fs resolve cache opts).1.contextText.length ≤
        opts.maxContextChars ∧
      ∃ k ≤ (multiBlocksOf fs resolve cache opts).length,
        (searchReposLocal fs resolve cache opts).1.contextText =
          trimStr (((multiBlocksOf fs resolve cache opts).take k).foldl sepAppend []) ∧
        (k < (multiBlocksOf fs resolve cache opts).length →
          opts.maxContextChars <
            (((multiBlocksOf fs resolve cache opts).take k).foldl sepAppend []).length +
            ((multiBlocksOf fs resolve cache opts).getD k []).length)) := by
  constructor
  · intro fs cache opts
    have hb : ∀ b ∈ repoBlocksOf fs cache opts, endsNl b := by
      intro b hbmem
      obtain ⟨s, _, hs⟩ := List.mem_map.mp hbmem
      exact hs ▸ repoBlock_endsNl s
    have hspec := contextLoop_spec opts.maxContextChars (repoBlocksOf fs cache opts) hb
    rw [searchRepo_contextText_eq fs cache opts]
    exact hspec
  · intro fs resolve cache opts
    have hb : ∀ b ∈ multiBlocksOf fs resolve cache opts, endsNl b := by
      intro b hbmem
      obtain ⟨e, _, he⟩ := List.mem_map.mp hbmem
      exact he ▸ multiBlock_endsNl e
    have hspec := contextLoop_spec opts.maxContextChars
      (multiBlocksOf fs resolve cache opts) hb
    rw [searchReposLocal_contextText_eq fs resolve cache opts]
    exact hspec

/-- C1 witness: the guarantee evaluated at a concrete search over the
two-repository needle fixture. -/
theorem c1_contextText_block_truncation_witness :
    (searchRepo fsNeedle [] optsNeedle).1.contextText.length ≤
      optsNeedle.maxContextChars ∧
    ∃ k ≤ (repoBlocksOf fsNeedle [] optsNeedle).length,
      (searchRepo fsNeedle [] optsNeedle).1.contextText =
        trimStr (((repoBlocksOf fsNeedle [] optsNeedle).take k).foldl sepAppend []) ∧
      (k < (repoBlocksOf fsNeedle [] optsNeedle).length →
        optsNeedle.maxContextChars <
          (((repoBlocksOf fsNeedle [] optsNeedle).take k).foldl sepAppend []).length +
          ((repoBlocksOf fsNeedle [] optsNeedle).getD k []).length) :=
  c1_contextText_block_truncation.1 fsNeedle [] optsNeedle

/-- C2: evaluating the pool at the failing scenario (size 1, queue
capacity 1; task 1 dispatched, task 2 queued, then close).  close rejects
the dispatched task's future, terminates the workers and makes later run
calls reject, but it clears the queue while leaving the queued task's
future unsettled forever — contradicting the specified behavior that
every pending or queued future is failed. -/
theorem c2_close_leaves_queued_future_unsettled :
    (poolRun (poolInit 1 1) payloadW).2 = RunOutcome.dispatched 1 0 ∧
    (poolRun poolS1 payloadW).2 = RunOutcome.queued 2 ∧
    poolS2.queue = [2] ∧
    futGet poolClosed.futures 1 =
      some (FutureState.rejected (S "Repo search worker pool closed")) ∧
    futGet poolClosed.futures 2 = some FutureState.unsettled ∧
    poolClosed.queue = [] ∧
    poolClosed.workers.all (fun w => w.terminated) = true ∧
    poolClosed.closed = true ∧
    (poolRun poolClosed payloadW).2 = RunOutcome.rejectedClosed := by
  decide

theorem futGet_futSet (id : Nat) (f : FutureState) :
    ∀ l : List (Nat × FutureState), futGet (futSet l id f) id = some f := by
  intro l
  induction l with
  | nil => simp [futGet, futSet]
  | cons e rest ih =>
    by_cases he : e.1 = id
    · simp [futGet, futSet, he]
    · simp [futGet, futSet, he, ih]

/-- C5: with pool size 1 and queueMax = 0, a run call that arrives while
the single worker is busy concludes synchronously with an empty result
carrying the trimmed query — its future is resolved at once, neither
queued nor rejected. -/
theorem c5_busy_zero_queue_degrades (s : PoolState) (w : WorkerSlot)
    (p : MultiRepoSearchOptions) (hw : s.workers = [w]) (hbusy : w.busy = true)
    (hq : s.queueMax = 0) (hclosed : s.closed = false) :
    (poolRun s p).2 = RunOutcome.resolvedEmpty s.nextId
      { query := trimStr p.query, contextText := [], sources := [] } ∧
    futGet (poolRun s p).1.futures s.nextId =
      some (FutureState.resolved
        { query := trimStr p.query, contextText := [], sources := [] }) := by
  have hidle : findIdle s.workers = none := by
    rw [hw]
    simp [findIdle, hbusy]
  unfold poolRun
  rw [if_neg (by simp [hclosed])]
  dsimp only
  rw [hidle]
  dsimp only
  rw [if_pos hq]
  exact ⟨rfl, futGet_futSet s.nextId _ s.futures⟩

/-- C5 witness: the degrade evaluated at a concrete busy one-worker pool
with queue capacity 0. -/
theorem c5_busy_zero_queue_degrades_witness :
    (poolRun (poolRun (poolInit 1 0) payloadW).1 payloadW).2 =
      RunOutcome.resolvedEmpty 2
        { query := S "q", contextText := [], sources := [] } :=
  by
  have h := c5_busy_zero_queue_degrades (poolRun (poolInit 1 0) payloadW).1
    { busy := true, taskId := some 1, terminated := false } payloadW
    (by decide) rfl rfl rfl
  exact h.1.trans (by decide)

theorem cacheGet_cacheSet (k : Str) (v : RepoIndex) :
    ∀ cache : IndexCache, cacheGet (cacheSet cache k v) k = some v := by
  intro cache
  induction cache with
  | nil => simp [cacheGet, cacheSet]
  | cons e rest ih =>
    by_cases he : e.1 = k
    · simp [cacheGet, cacheSet, he]
    · simp [cacheGet, cacheSet, he, ih]

/-- C7: when the cache holds an index for the repository built with bound
M, a request with maxFiles K at most M is served from the cache (the
cache is not modified, the served files are the cached list cut at K, and
the entry keeps bound M); a request with K over M rebuilds and replaces
the entry with one built at bound K. -/
theorem c7_monotonic_cache_reuse (fs : FS) (cache : IndexCache) (repoPath : Str)
    (K : Nat) (cached : RepoIndex) (hc : cacheGet cache repoPath = some cached) :
    (K ≤ cached.maxFiles →
      getRepoIndex fs cache repoPath K =
        ({ files := cached.files.take K, builtAtMs := cached.builtAtMs,
           maxFiles := cached.maxFiles }, cache)) ∧
    (cached.maxFiles < K →
      getRepoIndex fs cache repoPath K =
        ({ files := buildIndexFiles fs repoPath K, builtAtMs := fs.nowMs,
           maxFiles := K },
         cacheSet cache repoPath
           { files := buildIndexFiles fs repoPath K, builtAtMs := fs.nowMs,
             maxFiles := K }) ∧
      cacheGet (getRepoIndex fs cache repoPath K).2 repoPath =
        some { files := buildIndexFiles fs repoPath K, builtAtMs := fs.nowMs,
               maxFiles := K }) := by
  constructor
  · intro hK
    unfold getRepoIndex
    rw [hc]
    dsimp only
    rw [if_pos hK]
  · intro hK
    have hKn : ¬K ≤ cached.maxFiles := Nat.not_le.mpr hK
    constructor
    · unfold getRepoIndex
      rw [hc]
      dsimp only
      rw [if_neg hKn]
    · unfold getRepoIndex
      rw [hc]
      dsimp only
      rw [if_neg hKn]
      exact cacheGet_cacheSet repoPath _ cache

/-- C3 counterexample: two aggregator inputs whose repository lists are
permutations of each other, otherwise identical, where both repositories
hold a snippet of equal score.  The stable merge+sort keeps repository
iteration order for the tie, so the merged ranking (visible in sources)
differs — refuting the claim that aggregation order depends only on
score. -/
theorem c3_counterexample :
    List.Perm moptsAB.repos moptsBA.repos ∧
    (searchReposLocal fsNeedle (fun s => s) [] moptsAB).1.sources ≠
      (searchReposLocal fsNeedle (fun s => s) [] moptsBA).1.sources := by
  constructor
  · decide
  · decide

/-- C3 amended: after the merge+sort step, the aggregation order is
independent of repository iteration order provided the merged snippet
scores are pairwise distinct; with tied scores the stable sort preserves
the merge order, which follows repository iteration order. -/
theorem c3_amended_order_independent_when_scores_distinct
    (l₁ l₂ : List (RepoWithName × RepoSnippet))
    (hperm : List.Perm l₁ l₂)
    (hdist : l₁.Pairwise (fun a b => a.2.score ≠ b.2.score)) :
    mergeRankedSnippets l₁ = mergeRankedSnippets l₂ := by
  unfold mergeRankedSnippets sortByKeyDesc
  have hsymm : ∀ {x y : RepoWithName × RepoSnippet},
      x.2.score ≠ y.2.score → y.2.score ≠ x.2.score := fun h => h.symm
  haveI : IsTotal (RepoWithName × RepoSnippet)
      (fun a b => b.2.score ≤ a.2.score) :=
    ⟨fun a b => Nat.le_total b.2.score a.2.score⟩
  haveI : IsTrans (RepoWithName × RepoSnippet)
      (fun a b => b.2.score ≤ a.2.score) :=
    ⟨fun _ _ _ hab hbc => Nat.le_trans hbc hab⟩
  have hp₁ := List.perm_insertionSort (fun a b => b.2.score ≤ a.2.score) l₁
  have hp₂ := List.perm_insertionSort (fun a b => b.2.score ≤ a.2.score) l₂
  have hs₁ := List.sorted_insertionSort (fun a b => b.2.score ≤ a.2.score) l₁
  have hs₂ := List.sorted_insertionSort (fun a b => b.2.score ≤ a.2.score) l₂
  have hdist₂ : l₂.Pairwise (fun a b => a.2.score ≠ b.2.score) :=
    (hperm.pairwise_iff hsymm).mp hdist
  have hd₁ : (List.insertionSort (fun a b => b.2.score ≤ a.2.score) l₁).Pairwise
      (fun a b => a.2.score ≠ b.2.score) := (hp₁.pairwise_iff hsymm).mpr hdist
  have hd₂ : (List.insertionSort (fun a b => b.2.score ≤ a.2.score) l₂).Pairwise
      (fun a b => a.2.score ≠ b.2.score) := (hp₂.pairwise_iff hsymm).mpr hdist₂
  have hss₁ : (List.insertionSort (fun a b => b.2.score ≤ a.2.score) l₁).Pairwise
      (fun a b => b.2.score < a.2.score) :=
    (List.pairwise_and_iff.mpr ⟨hs₁, hd₁⟩).imp
      (fun h => Nat.lt_of_le_of_ne h.1 (Ne.symm h.2))
  have hss₂ : (List.insertionSort (fun a b => b.2.score ≤ a.2.score) l₂).Pairwise
      (fun a b => b.2.score < a.2.score) :=
    (List.pairwise_and_iff.mpr ⟨hs₂, hd₂⟩).imp
      (fun h => Nat.lt_of_le_of_ne h.1 (Ne.symm h.2))
  haveI : IsAntisymm (RepoWithName × RepoSnippet)
      (fun a b => b.2.score < a.2.score) :=
    ⟨fun _ _ h1 h2 => absurd h1 (Nat.lt_asymm h2)⟩
  exact List.eq_of_perm_of_sorted (hp₁.trans (hperm.trans hp₂.symm)) hss₁ hss₂

/-- C3 amended witness: the permutation invariance evaluated at a
concrete two-entry merge with distinct scores 5 and 3. -/
theorem c3_amended_witness :
    List.Perm [entA, entB] [entB, entA] ∧
    List.Pairwise (fun a b : RepoWithName × RepoSnippet =>
      a.2.score ≠ b.2.score) [entA, entB] ∧
    mergeRankedSnippets [entA, entB] = mergeRankedSnippets [entB, entA] :=
  ⟨by decide, by decide,
   c3_amended_order_independent_when_scores_distinct [entA, entB] [entB, entA]
     (by decide) (by decide)⟩

/-- C4 counterexample: on a one-line file the rendered excerpt line is
the line number left-padded (padStart in the source), not right-padded as
the claim reads, so the claimed rendering differs from the code's. -/
theorem c4_counterexample :
    makeExcerpt [S "alpha"] 1 0 ≠ makeExcerptRightPadded [S "alpha"] 1 0 ∧
    makeExcerpt [S "alpha"] 1 0 = S "    1 | alpha" := by
  constructor
  · decide
  · decide

/-- C4 amended: for every non-empty lines array, valid bestLine and any
contextLines, the excerpt consists exactly of the lines with 0-based
indices max(0, bestLine-1-contextLines) through
min(lastLine, bestLine-1+contextLines) inclusive, each prefixed with its
1-based line number left-padded with spaces to width 5 (right-aligned)
followed by the separator. -/
theorem c4_amended_excerpt_window (lines : List Str) (bestLine contextLines : Nat)
    (hne : lines ≠ []) (h1 : 1 ≤ bestLine) (h2 : bestLine ≤ lines.length) :
    makeExcerpt lines bestLine contextLines =
      List.intercalate (S "\n")
        ((List.range' (bestLine - 1 - contextLines)
            (min (lines.length - 1) (bestLine - 1 + contextLines) + 1 -
              (bestLine - 1 - contextLines))).map
          (fun i => padStart (natToStr (i + 1)) 5 ' ' ++ S " | " ++ lines.getD i [])) := by
  have hlen : 1 ≤ lines.length := h1.trans h2
  unfold makeExcerpt
  dsimp only
  have hs : (max 0 ((bestLine : Int) - 1 - (contextLines : Int))).toNat =
      bestLine - 1 - contextLines := by omega
  have hc : ((min ((lines.length : Int) - 1) ((bestLine : Int) - 1 + (contextLines : Int))) +
      1 - max 0 ((bestLine : Int) - 1 - (contextLines : Int))).toNat =
      min (lines.length - 1) (bestLine - 1 + contextLines) + 1 -
        (bestLine - 1 - contextLines) := by omega
  rw [hs, hc]
  rfl

/-- C4 amended witness: the window characterization evaluated at a
concrete three-line file, best line 2, one context line. -/
theorem c4_amended_excerpt_window_witness :
    ([S "alpha", S "beta", S "gamma"] : List Str) ≠ [] ∧
    makeExcerpt [S "alpha", S "beta", S "gamma"] 2 1 =
      List.intercalate (S "\n")
        ((List.range' (2 - 1 - 1)
            (min (([S "alpha", S "beta", S "gamma"] : List Str).length - 1)
              (2 - 1 + 1) + 1 - (2 - 1 - 1))).map
          (fun i => padStart (natToStr (i + 1)) 5 ' ' ++ S " | " ++
            ([S "alpha", S "beta", S "gamma"] : List Str).getD i [])) :=
  ⟨by decide,
   c4_amended_excerpt_window [S "alpha", S "beta", S "gamma"] 2 1
     (by decide) (by decide) (by decide)⟩

theorem trimStr_eq_rdropWhile (s : Str) :
    trimStr s = List.rdropWhile isWs (List.dropWhile isWs s) := rfl

theorem dropWhile_trimStr (s : Str) :
    List.dropWhile isWs (trimStr s) = trimStr s := by
  rw [trimStr_eq_rdropWhile]
  rcases h : List.rdropWhile isWs (List.dropWhile isWs s) with _ | ⟨c, cs⟩
  · simp
  · obtain ⟨t, ht⟩ := List.rdropWhile_prefix isWs (List.dropWhile isWs s)
    rw [h] at ht
    have h0 : 0 < (List.dropWhile isWs s).length := by
      rw [← ht]; simp
    have hng := List.dropWhile_get_zero_not (p := isWs) s h0
    have hc : (List.dropWhile isWs s).get ⟨0, h0⟩ = c := by
      have ht2 : List.dropWhile isWs s = c :: (cs ++ t) := by
        rw [← ht]; rfl
      simp [ht2]
    rw [hc] at hng
    exact List.dropWhile_cons_of_neg hng

theorem trimStr_idem (s : Str) : trimStr (trimStr s) = trimStr s := by
  calc trimStr (trimStr s)
      = List.rdropWhile isWs (List.dropWhile isWs (trimStr s)) := rfl
    _ = List.rdropWhile isWs (trimStr s) := by rw [dropWhile_trimStr]
    _ = List.rdropWhile isWs (List.rdropWhile isWs (List.dropWhile isWs s)) := rfl
    _ = List.rdropWhile isWs (List.dropWhile isWs s) :=
        List.rdropWhile_idempotent isWs (List.dropWhile isWs s)
    _ = trimStr s := rfl

theorem tokenizeQuery_trimStr (q : Str) :
    tokenizeQuery (trimStr q) = tokenizeQuery q := by
  unfold tokenizeQuery
  rw [trimStr_idem]

theorem searchRepo_empty_tokens (fs : FS) (cache : IndexCache)
    (opts : SearchRepoOptions) (h : tokenizeQuery (trimStr opts.query) = []) :
    searchRepo fs cache opts =
      ({ query := trimStr opts.query, snippets := [], contextText := [],
         sources := [] }, cache) := by
  unfold searchRepo
  dsimp only
  rw [if_pos (by simp [h])]

theorem searchPerRepo_empty_tokens (fs : FS) (q : Str)
    (h : tokenizeQuery q = []) (mf mfb : Nat) (ms : Int) (scl mcc : Nat) :
    ∀ (repos : List RepoWithName) (cache : IndexCache),
      searchPerRepo fs q mf mfb ms scl mcc repos cache =
        (repos.map (fun r => (r, ([] : List RepoSnippet))), cache) := by
  intro repos
  induction repos with
  | nil => intro cache; rfl
  | cons r rs ih =>
    intro cache
    unfold searchPerRepo
    have hone := searchRepo_empty_tokens fs cache
      { repoPath := r.repoPath, query := q, maxFiles := mf, maxFileBytes := mfb,
        maxSnippets := ms, snippetContextLines := scl, maxContextChars := mcc }
      (by rw [tokenizeQuery_trimStr]; exact h)
    rw [hone]
    dsimp only
    rw [ih cache]
    rfl

/-- C6: for every query whose token set is empty, single-repo search and
the aggregator return the empty result immediately and leave the index
cache unchanged (no index is built). -/
theorem c6_empty_token_set_no_side_effects :
    (∀ (fs : FS) (cache : IndexCache) (opts : SearchRepoOptions),
      tokenizeQuery (trimStr opts.query) = [] →
      searchRepo fs cache opts =
        ({ query := trimStr opts.query, snippets := [], contextText := [],
           sources := [] }, cache)) ∧
    (∀ (fs : FS) (resolve : Str → Str) (cache : IndexCache)
        (opts : MultiRepoSearchOptions),
      tokenizeQuery (trimStr opts.query) = [] →
      searchReposLocal fs resolve cache opts =
        ({ query := trimStr opts.query, contextText := [], sources := [] },
         cache)) := by
  constructor
  · exact searchRepo_empty_tokens
  · intro fs resolve cache opts h
    unfold searchReposLocal
    dsimp only
    by_cases hc : (decide (trimStr opts.query = []) ||
        decide (normalizeRepos resolve opts.repos = [])) = true
    · rw [if_pos hc]
    · rw [if_neg hc]
      rw [searchPerRepo_empty_tokens fs (trimStr opts.query) h
        opts.maxFiles opts.maxFileBytes (max opts.maxSnippets 1)
        opts.snippetContextLines opts.maxContextChars
        (normalizeRepos resolve opts.repos) cache]
      dsimp only
      have hall : multiAll ((normalizeRepos resolve opts.repos).map
          (fun r => (r, ([] : List RepoSnippet)))) = [] := by
        simp [multiAll]
      rw [hall]
      simp [mergeRankedSnippets, sortByKeyDesc, dedupeSources, buildContextLoop,
        trimStr]

/-- C6 witness: a stop-word-only query has an empty token set, and both
searches return the empty result with the cache untouched. -/
theorem c6_empty_token_set_no_side_effects_witness :
    tokenizeQuery (trimStr (S "the of in")) = [] ∧
    searchRepo fsNeedle [] { optsNeedle with query := S "the of in" } =
      ({ query := trimStr (S "the of in"), snippets := [], contextText := [],
         sources := [] }, []) ∧
    searchReposLocal fsNeedle (fun s => s) []
        { moptsAB with query := S "the of in" } =
      ({ query := trimStr (S "the of in"), contextText := [], sources := [] },
       []) :=
  ⟨by decide,
   c6_empty_token_set_no_side_effects.1 fsNeedle []
     { optsNeedle with query := S "the of in" } (by decide),
   c6_empty_token_set_no_side_effects.2 fsNeedle (fun s => s) []
     { moptsAB with query := S "the of in" } (by decide)⟩

theorem addFollowUps_length_le (ask : List Str) :
    ∀ existing : List Str, existing.length < 3 →
      (addFollowUps existing ask).length ≤ 3 := by
  induction ask with
  | nil => intro existing h; exact Nat.le_of_lt (by simpa [addFollowUps] using h)
  | cons q rest ih =>
    intro existing h
    unfold addFollowUps
    dsimp only
    by_cases hv : trimStr q = []
    · rw [if_pos hv]; exact ih existing h
    · rw [if_neg hv]
      by_cases hdup : existing.contains (trimStr q) = true
      · rw [if_pos hdup]; exact ih existing h
      · rw [if_neg hdup]
        by_cases hcap : 3 ≤ existing.length + 1
        · rw [if_pos hcap]
          simp only [List.length_append, List.length_cons, List.length_nil]
          omega
        · rw [if_neg hcap]
          refine ih (existing ++ [trimStr q]) ?_
          simp only [List.length_append, List.length_cons, List.length_nil]
          omega

/-- C8: whenever the planner's plan for a round proposes clarifying
questions, the controller's round loop records them (trimmed,
deduplicated, capped at 3) into followUpQuestions and stops immediately:
the resulting state is otherwise unchanged — in particular no query is
issued this round (the issued logs and seen sets stay as they were) and
no later round runs. -/
theorem c8_stop_on_clarifying_questions (cfg : ControllerConfig)
    (env : ResearchEnv) (fuel round : Nat) (st : ResearchState)
    (hllm : cfg.llmActive = true)
    (hask : (env.plan round (joinBlocks st.repoBlocks cfg.repoMaxContextChars)
      (joinBlocks st.tidbBlocks cfg.tidbAiMaxContextChars)).askUser ≠ []) :
    researchLoop cfg env (fuel + 1) round st =
      { st with followUpQuestions := (addFollowUps st.followUpQuestions
          (env.plan round (joinBlocks st.repoBlocks cfg.repoMaxContextChars)
            (joinBlocks st.tidbBlocks cfg.tidbAiMaxContextChars)).askUser) } ∧
    (st.followUpQuestions = [] →
      (researchLoop cfg env (fuel + 1) round st).followUpQuestions.length ≤ 3) := by
  have heq : researchLoop cfg env (fuel + 1) round st =
      { st with followUpQuestions := (addFollowUps st.followUpQuestions
          (env.plan round (joinBlocks st.repoBlocks cfg.repoMaxContextChars)
            (joinBlocks st.tidbBlocks cfg.tidbAiMaxContextChars)).askUser) } := by
    unfold researchLoop
    rw [if_neg (by simp [hllm])]
    dsimp only
    rw [if_pos hask]
  refine ⟨heq, fun h0 => ?_⟩
  rw [heq]
  dsimp only
  rw [h0]
  exact addFollowUps_length_le _ [] (by simp)

/-- C8 witness: a concrete round-2 plan proposing one question stops the
loop with exactly that question recorded and no queries issued. -/
theorem c8_stop_on_clarifying_questions_witness :
    researchLoop cfgW envAsk 2 2 stW =
      { stW with followUpQuestions := [S "Which TiDB version?"] } ∧
    (researchLoop cfgW envAsk 2 2 stW).issuedRepo = [] ∧
    (researchLoop cfgW envAsk 2 2 stW).issuedTidb = [] := by
  have h := (c8_stop_on_clarifying_questions cfgW envAsk 1 2 stW rfl
    (by decide)).1
  refine ⟨h.trans (by decide), ?_, ?_⟩
  · rw [h]; rfl
  · rw [h]; rfl

/-- C9: for every malformed or unparseable planner response — the
provider call chain throws, the output holds no JSON object, or the JSON
does not parse — analyzeResearchFollowups returns the safe default plan
instead of propagating an error. -/
theorem c9_malformed_planner_fallback (cfg : RFConfig)
    (parseJson : Str → Option Json) (t : Str) :
    analyzeResearchFollowups cfg none parseJson = fallbackPlan ∧
    (extractJsonObject t = none →
      analyzeResearchFollowups cfg (some t) parseJson = fallbackPlan) ∧
    (∀ j, extractJsonObject t = some j → parseJson j = none →
      analyzeResearchFollowups cfg (some t) parseJson = fallbackPlan) := by
  refine ⟨?_, ?_, ?_⟩
  · unfold analyzeResearchFollowups
    by_cases hm : (!cfg.modeIsLlm || decide (cfg.openaiApiKey = [])) = true
    · rw [if_pos hm]
    · rw [if_neg hm]
  · intro hx
    unfold analyzeResearchFollowups
    by_cases hm : (!cfg.modeIsLlm || decide (cfg.openaiApiKey = [])) = true
    · rw [if_pos hm]
    · rw [if_neg hm]
      dsimp only
      rw [hx]
  · intro j hj hp
    unfold analyzeResearchFollowups
    by_cases hm : (!cfg.modeIsLlm || decide (cfg.openaiApiKey = [])) = true
    · rw [if_pos hm]
    · rw [if_neg hm]
      dsimp only
      rw [hj]
      dsimp only
      rw [hp]

/-- C9 witness: the fallback evaluated at a concrete throwing provider
and at a concrete response with no JSON object. -/
theorem c9_malformed_planner_fallback_witness :
    analyzeResearchFollowups
      { modeIsLlm := true, openaiApiKey := S "k", repoPaths := [S "/a"],
        tidbAiEnabled := true } none (fun _ => none) = fallbackPlan ∧
    analyzeResearchFollowups
      { modeIsLlm := true, openaiApiKey := S "k", repoPaths := [S "/a"],
        tidbAiEnabled := true } (some (S "no json here")) (fun _ => none) =
      fallbackPlan :=
  ⟨(c9_malformed_planner_fallback
      { modeIsLlm := true, openaiApiKey := S "k", repoPaths := [S "/a"],
        tidbAiEnabled := true } (fun _ => none) (S "no json here")).1,
   (c9_malformed_planner_fallback
      { modeIsLlm := true, openaiApiKey := S "k", repoPaths := [S "/a"],
        tidbAiEnabled := true } (fun _ => none) (S "no json here")).2.1
     (by decide)⟩

theorem candidate_read_some (fs : FS) (repoPath : Str) (maxFileBytes : Nat)
    (tokensLower : List Str) (files : List Str) (c : FileCandidate)
    (h : c ∈ repoCandidates fs repoPath maxFileBytes tokensLower files) :
    ∃ content, fs.read (pathJoin repoPath c.filePath) = some content := by
  obtain ⟨rel, _hrel, heval⟩ := List.mem_filterMap.mp h
  unfold evalCandidate at heval
  dsimp only at heval
  cases hstat : fs.stat (pathJoin repoPath rel) with
  | none => rw [hstat] at heval; exact absurd heval (by simp)
  | some st =>
    rw [hstat] at heval
    dsimp only at heval
    by_cases hf : (!st.isFile) = true
    · rw [if_pos hf] at heval; exact absurd heval (by simp)
    · rw [if_neg hf] at heval
      by_cases hsz : (decide (st.size = 0) || decide (maxFileBytes < st.size)) = true
      · rw [if_pos hsz] at heval; exact absurd heval (by simp)
      · rw [if_neg hsz] at heval
        cases hread : fs.read (pathJoin repoPath rel) with
        | none => rw [hread] at heval; exact absurd heval (by simp)
        | some content =>
          rw [hread] at heval
          dsimp only at heval
          by_cases hbin : fs.isBinary content = true
          · rw [if_pos hbin] at heval; exact absurd heval (by simp)
          · rw [if_neg hbin] at heval
            rcases hsc : scoreFile (splitLines content) tokensLower with ⟨score, obl⟩
            rw [hsc] at heval
            cases obl with
            | none => exact absurd heval (by simp)
            | some bl =>
              dsimp only at heval
              by_cases hs0 : score = 0
              · rw [if_pos hs0] at heval; exact absurd heval (by simp)
              · rw [if_neg hs0] at heval
                have hcrec := Option.some.inj heval
                subst hcrec
                exact ⟨content, hread⟩

theorem dedupeSources_length_le :
    ∀ (l seen : List Str), (dedupeSources l seen).length ≤ l.length := by
  intro l
  induction l with
  | nil => intro seen; simp [dedupeSources]
  | cons s ss ih =>
    intro seen
    unfold dedupeSources
    by_cases h : seen.contains s = true
    · rw [if_pos h]
      exact (ih _).trans (by simp)
    · rw [if_neg h]
      simpa using Nat.succ_le_succ (ih _)

/-- C10: with maxSnippets at most 0, the effective snippet cap of both
the single-repo search and the aggregator is max(maxSnippets, 1) = 1, not
0: a repository with at least one matching candidate still yields exactly
one snippet, and the aggregator's merged selection never exceeds one
source. -/
theorem c10_nonpositive_maxSnippets_cap_one :
    (∀ (fs : FS) (cache : IndexCache) (opts : SearchRepoOptions),
      opts.maxSnippets ≤ 0 →
      tokenizeQuery (trimStr opts.query) ≠ [] →
      searchRepoCandidates fs cache opts ≠ [] →
      (searchRepo fs cache opts).1.snippets.length = 1) ∧
    (∀ (fs : FS) (resolve : Str → Str) (cache : IndexCache)
        (opts : MultiRepoSearchOptions),
      opts.maxSnippets ≤ 0 →
      (searchReposLocal fs resolve cache opts).1.sources.length ≤ 1) := by
  constructor
  · intro fs cache opts hms htok hcand
    have hq : trimStr opts.query ≠ [] := by
      intro h0
      apply htok
      rw [h0]
      decide
    unfold searchRepo
    dsimp only
    rw [if_neg (by simp [hq, htok])]
    dsimp only
    have hmax : (max opts.maxSnippets 1).toNat = 1 := by omega
    rw [hmax]
    have hne : sortByKeyDesc FileCandidate.score (searchRepoCandidates fs cache opts) ≠ [] := by
      intro h0
      apply hcand
      have hp := List.perm_insertionSort
        (fun a b : FileCandidate => FileCandidate.score b ≤ FileCandidate.score a)
        (searchRepoCandidates fs cache opts)
      rw [sortByKeyDesc] at h0
      rw [h0] at hp
      exact (List.perm_nil.mp hp.symm)
    obtain ⟨c, rest, hcr⟩ := List.exists_cons_of_ne_nil hne
    have hcmem : c ∈ searchRepoCandidates fs cache opts := by
      have hp := List.perm_insertionSort
        (fun a b : FileCandidate => FileCandidate.score b ≤ FileCandidate.score a)
        (searchRepoCandidates fs cache opts)
      have hmem : c ∈ sortByKeyDesc FileCandidate.score
          (searchRepoCandidates fs cache opts) := by
        rw [hcr]; exact List.mem_cons_self c rest
      rw [sortByKeyDesc] at hmem
      exact hp.mem_iff.mp hmem
    rw [show (sortByKeyDesc FileCandidate.score
        (repoCandidates fs opts.repoPath opts.maxFileBytes
          (List.map lowerStr (tokenizeQuery (trimStr opts.query)))
          (getRepoIndex fs cache opts.repoPath opts.maxFiles).1.files)) =
      c :: rest from hcr]
    simp only [List.take_succ_cons, List.take_zero]
    obtain ⟨content, hread⟩ := candidate_read_some fs opts.repoPath
      opts.maxFileBytes _ _ c hcmem
    simp [snippetOfCandidate, hread]
  · intro fs resolve cache opts hms
    unfold searchReposLocal
    dsimp only
    by_cases hc : (decide (trimStr opts.query = []) ||
        decide (normalizeRepos resolve opts.repos = [])) = true
    · rw [if_pos hc]
      simp
    · rw [if_neg hc]
      dsimp only
      have hmax : (max opts.maxSnippets 1).toNat = 1 := by omega
      rw [hmax]
      refine (dedupeSources_length_le _ _).trans ?_
      rw [List.length_map, List.length_take]
      exact min_le_left _ _

/-- C10 witness: requesting zero snippets from the needle repository
still yields one snippet. -/
theorem c10_nonpositive_maxSnippets_cap_one_witness :
    searchRepoCandidates fsNeedle [] { optsNeedle with maxSnippets := 0 } ≠ [] ∧
    (searchRepo fsNeedle [] { optsNeedle with maxSnippets := 0 }).1.snippets.length = 1 :=
  ⟨by decide,
   c10_nonpositive_maxSnippets_cap_one.1 fsNeedle []
     { optsNeedle with maxSnippets := 0 } (by decide) (by decide) (by decide)⟩

/-- C7 witness: cache behavior evaluated concretely, with a cached bound
of 5: a request at 3 is served from cache unchanged, a request at 9
rebuilds at bound 9. -/
theorem c7_monotonic_cache_reuse_witness :
    (3 ≤ 5 →
      getRepoIndex fsNeedle [(S "/a", { files := [S "f.md"], builtAtMs := 0, maxFiles := 5 })] (S "/a") 3 =
        ({ files := [S "f.md"], builtAtMs := 0, maxFiles := 5 },
         [(S "/a", { files := [S "f.md"], builtAtMs := 0, maxFiles := 5 })])) ∧
    (5 < 9 →
      getRepoIndex fsNeedle [(S "/a", { files := [S "f.md"], builtAtMs := 0, maxFiles := 5 })] (S "/a") 9 =
        ({ files := [S "f.md"], builtAtMs := 0, maxFiles := 9 },
         [(S "/a", { files := [S "f.md"], builtAtMs := 0, maxFiles := 9 })])) := by
  constructor
  · intro h
    have h37 := (c7_monotonic_cache_reuse fsNeedle
      [(S "/a", { files := [S "f.md"], builtAtMs := 0, maxFiles := 5 })]
      (S "/a") 3 { files := [S "f.md"], builtAtMs := 0, maxFiles := 5 } (by decide)).1 h
    rw [h37]
    decide
  · intro h
    have h97 := ((c7_monotonic_cache_reuse fsNeedle
      [(S "/a", { files := [S "f.md"], builtAtMs := 0, maxFiles := 5 })]
      (S "/a") 9 { files := [S "f.md"], builtAtMs := 0, maxFiles := 5 } (by decide)).2 h).1
    rw [h97]
    decide

end RM
